import Mathlib

/-!
Verification of the option-pricing engine (`src/back/pricer/options.py` and
`src/back/pricer/monte_carlo.py`) against its natural-language specification.

Floating-point arithmetic is modelled by real arithmetic; numpy arrays by
lists or index functions; the numpy random generator by abstract draw
streams; Python exceptions raised in constructors by `Except`, and a
`ZeroDivisionError` reachable inside `BarrierOption.price` by `Option`.
-/

noncomputable section

namespace Pricer

/-- `OptionType` mirrors the `OptionType` enum (CALL / PUT). -/
inductive OptionType
  | CALL
  | PUT
deriving DecidableEq

/-- `Contract` mirrors the `BaseOption` dataclass fields (the validated
parameter bundle shared by every model). -/
structure Contract where
  spot : ℝ
  strike : ℝ
  maturity : ℝ
  volatility : ℝ
  rate : ℝ
  dividend_yield : ℝ
  option_type : OptionType

/-- Vanilla intrinsic payoff: `max(s - strike, 0)` for a CALL,
`max(strike - s, 0)` for a PUT, as written at each payoff site of the code. -/
def payoff (ot : OptionType) (strike s : ℝ) : ℝ :=
  match ot with
  | .CALL => max (s - strike) 0
  | .PUT => max (strike - s) 0

/-- The four validation failures of `BaseOption.__post_init__` (the French
`ValueError` messages are abstracted into constructor tags). -/
inductive VErr
  | spotNonPositive
  | strikeNonPositive
  | maturityNonPositive
  | volatilityNonPositive
deriving DecidableEq

/-- `BaseOption.__post_init__`: checks `spot <= 0`, `strike <= 0`,
`maturity <= 0`, `volatility <= 0` in that order, raising on the first
violation; otherwise the object is created. -/
def mkBaseOption (s k t sigma r q : ℝ) (ot : OptionType) : Except VErr Contract :=
  if s ≤ 0 then .error .spotNonPositive
  else if k ≤ 0 then .error .strikeNonPositive
  else if t ≤ 0 then .error .maturityNonPositive
  else if sigma ≤ 0 then .error .volatilityNonPositive
  else .ok ⟨s, k, t, sigma, r, q, ot⟩

/-- `AmericanOption` construction: the dataclass adds a `steps` field with
no check of its own; only the inherited `BaseOption.__post_init__` runs. -/
def mkAmericanOption (s k t sigma r q : ℝ) (ot : OptionType) (steps : ℤ) :
    Except VErr (Contract × ℤ) :=
  (mkBaseOption s k t sigma r q ot).map (fun c => (c, steps))

lemma mkBaseOption_of_pos (s k t sigma r q : ℝ) (ot : OptionType)
    (hs : 0 < s) (hk : 0 < k) (ht : 0 < t) (hv : 0 < sigma) :
    mkBaseOption s k t sigma r q ot = Except.ok ⟨s, k, t, sigma, r, q, ot⟩ := by
  unfold mkBaseOption
  rw [if_neg (not_le.mpr hs), if_neg (not_le.mpr hk), if_neg (not_le.mpr ht),
    if_neg (not_le.mpr hv)]

/-- C3. Constructing any option sharing the `Contract` shape fails with a
validation error if and only if one of spot, strike, maturity, volatility is
non-positive; when all four are strictly positive the fully populated object
is returned (failure happens at construction, so no usable object exists in
the error case: the `Except` is the whole result). -/
theorem contract_validation_iff (s k t sigma r q : ℝ) (ot : OptionType) :
    ((∃ e, mkBaseOption s k t sigma r q ot = .error e) ↔
      (s ≤ 0 ∨ k ≤ 0 ∨ t ≤ 0 ∨ sigma ≤ 0)) ∧
    (0 < s → 0 < k → 0 < t → 0 < sigma →
      mkBaseOption s k t sigma r q ot = .ok ⟨s, k, t, sigma, r, q, ot⟩) := by
  constructor
  · unfold mkBaseOption
    split_ifs with h1 h2 h3 h4 <;> simp_all
  · intro hs hk ht hv
    exact mkBaseOption_of_pos s k t sigma r q ot hs hk ht hv

/-- Witness for C3 at spot = strike = maturity = volatility = 1. -/
theorem contract_validation_iff_witness :
    mkBaseOption 1 1 1 1 0 0 .CALL = .ok ⟨1, 1, 1, 1, 0, 0, .CALL⟩ :=
  (contract_validation_iff 1 1 1 1 0 0 .CALL).2 (by norm_num) (by norm_num)
    (by norm_num) (by norm_num)

/-- `BaseOption._d1_d2`, first component:
`d1 = (log(s/k) + (r - q + 0.5*sigma^2)*t) / (sigma*sqrt(t))`. -/
def d1 (c : Contract) : ℝ :=
  (Real.log (c.spot / c.strike)
      + (c.rate - c.dividend_yield + 0.5 * c.volatility ^ 2) * c.maturity)
    / (c.volatility * Real.sqrt c.maturity)

/-- `BaseOption._d1_d2`, second component: `d2 = d1 - sigma*sqrt(t)`. -/
def d2 (c : Contract) : ℝ :=
  d1 c - c.volatility * Real.sqrt c.maturity

/-- `EuropeanOption.price`, with the standard-normal CDF `N` (supplied by
`scipy.stats.norm.cdf`) kept abstract:
CALL: `disc_q*s*N(d1) - disc_r*k*N(d2)`;
PUT: `disc_r*k*N(-d2) - disc_q*s*N(-d1)`. -/
def europeanPrice (N : ℝ → ℝ) (c : Contract) : ℝ :=
  let disc_r := Real.exp (-c.rate * c.maturity)
  let disc_q := Real.exp (-c.dividend_yield * c.maturity)
  match c.option_type with
  | .CALL => disc_q * c.spot * N (d1 c) - disc_r * c.strike * N (d2 c)
  | .PUT => disc_r * c.strike * N (-(d2 c)) - disc_q * c.spot * N (-(d1 c))

/-- C1. Put-call parity for the analytic model: for a valid contract and any
CDF with `N(x) + N(-x) = 1`, the CALL price minus the PUT price with
otherwise identical parameters equals `s*exp(-q*t) - k*exp(-r*t)` exactly. -/
theorem put_call_parity_analytic (N : ℝ → ℝ) (s k t sigma r q : ℝ)
    (hs : 0 < s) (hk : 0 < k) (ht : 0 < t) (hv : 0 < sigma)
    (hN : ∀ x, N x + N (-x) = 1) :
    europeanPrice N ⟨s, k, t, sigma, r, q, .CALL⟩
        - europeanPrice N ⟨s, k, t, sigma, r, q, .PUT⟩
      = s * Real.exp (-q * t) - k * Real.exp (-r * t) := by
  have hcall : europeanPrice N ⟨s, k, t, sigma, r, q, .CALL⟩
      = Real.exp (-q * t) * s * N (d1 ⟨s, k, t, sigma, r, q, .CALL⟩)
        - Real.exp (-r * t) * k * N (d2 ⟨s, k, t, sigma, r, q, .CALL⟩) := rfl
  have hput : europeanPrice N ⟨s, k, t, sigma, r, q, .PUT⟩
      = Real.exp (-r * t) * k * N (-(d2 ⟨s, k, t, sigma, r, q, .CALL⟩))
        - Real.exp (-q * t) * s * N (-(d1 ⟨s, k, t, sigma, r, q, .CALL⟩)) := rfl
  rw [hcall, hput]
  linear_combination (Real.exp (-q * t) * s) * hN (d1 ⟨s, k, t, sigma, r, q, .CALL⟩)
    - (Real.exp (-r * t) * k) * hN (d2 ⟨s, k, t, sigma, r, q, .CALL⟩)

/-- Witness for C1 with the constant half CDF and unit parameters. -/
theorem put_call_parity_analytic_witness :
    europeanPrice (fun _ => (1 : ℝ) / 2) ⟨1, 1, 1, 1, 0, 0, .CALL⟩
        - europeanPrice (fun _ => (1 : ℝ) / 2) ⟨1, 1, 1, 1, 0, 0, .PUT⟩
      = 1 * Real.exp (-(0 : ℝ) * 1) - 1 * Real.exp (-(0 : ℝ) * 1) :=
  put_call_parity_analytic (fun _ => (1 : ℝ) / 2) 1 1 1 1 0 0
    (by norm_num) (by norm_num) (by norm_num) (by norm_num) (fun x => by norm_num)

/-- `AmericanOption._tree_params`: `up = exp(sigma*sqrt(dt))` with `dt = t/steps`. -/
def binomUp (c : Contract) (n : ℕ) : ℝ :=
  Real.exp (c.volatility * Real.sqrt (c.maturity / n))

/-- `AmericanOption._tree_params`: `down = 1/up`. -/
def binomDown (c : Contract) (n : ℕ) : ℝ :=
  1 / binomUp c n

/-- `AmericanOption._tree_params`: `disc = exp((r - q)*dt)` (used both in the
risk-neutral probability and as the per-step factor of the backward loop). -/
def binomDisc (c : Contract) (n : ℕ) : ℝ :=
  Real.exp ((c.rate - c.dividend_yield) * (c.maturity / n))

/-- `AmericanOption._tree_params`: `p = (disc - down)/(up - down)`. -/
def binomP (c : Contract) (n : ℕ) : ℝ :=
  (binomDisc c n - binomDown c n) / (binomUp c n - binomDown c n)

/-- Lattice spot at step `t`, index `i`: `s0 * up^(t-i) * down^i`
(the code builds this with `np.arange` both at maturity and inside the loop). -/
def binomSpot (c : Contract) (n : ℕ) (t i : ℕ) : ℝ :=
  c.spot * binomUp c n ^ (t - i) * binomDown c n ^ i

/-- Terminal value array of `AmericanOption.price`:
`np.maximum(spots - strike, 0)` resp. `np.maximum(strike - spots, 0)` over
the `n+1` terminal spots. -/
def binomTerminal (c : Contract) (n : ℕ) : List ℝ :=
  (List.range (n + 1)).map (fun i => payoff c.option_type c.strike (binomSpot c n n i))

/-- One iteration of the backward loop of `AmericanOption.price` at `step`:
`values = disc*(p*values[:-1] + (1-p)*values[1:])` followed by
`values = np.maximum(values, intrinsic)` with the intrinsic payoffs at the
`step+1` spots of that step. -/
def binomStepList (c : Contract) (n : ℕ) (step : ℕ) (vals : List ℝ) : List ℝ :=
  let cont := List.zipWith
    (fun a b => binomDisc c n * (binomP c n * a + (1 - binomP c n) * b)) vals vals.tail
  let intrinsic := (List.range (step + 1)).map
    (fun i => payoff c.option_type c.strike (binomSpot c n step i))
  List.zipWith max cont intrinsic

/-- The backward loop `for step in range(n-1, -1, -1)` of `AmericanOption.price`:
`binomLoop c n k vals` runs the iterations for steps `k-1, ..., 0`. -/
def binomLoop (c : Contract) (n : ℕ) : ℕ → List ℝ → List ℝ
  | 0, vals => vals
  | k + 1, vals => binomLoop c n k (binomStepList c n k vals)

/-- `AmericanOption.price`: run the backward loop on the terminal array and
return `values[0]`. -/
def binomPrice (c : Contract) (n : ℕ) : ℝ :=
  (binomLoop c n n (binomTerminal c n)).headD 0

/-- Modelled from the spec wording of C2: the reference Cox-Ross-Rubinstein
backward induction, as a recursion on steps remaining until maturity.
`crrV c n m i` is the node value `m` steps before maturity at index `i`
(time step `t = n - m`): at maturity the vanilla intrinsic payoff, earlier
`max(disc*(p*V_up + (1-p)*V_down), intrinsic at that node's spot)`. -/
def crrV (c : Contract) (n : ℕ) : ℕ → ℕ → ℝ
  | 0, i => payoff c.option_type c.strike (binomSpot c n n i)
  | m + 1, i =>
      max (binomDisc c n *
            (binomP c n * crrV c n m i + (1 - binomP c n) * crrV c n m (i + 1)))
        (payoff c.option_type c.strike (binomSpot c n (n - (m + 1)) i))

lemma binomStepList_map (c : Contract) (n k : ℕ) (h : k + 1 ≤ n) :
    binomStepList c n k
        ((List.range (k + 2)).map (fun i => crrV c n (n - (k + 1)) i)) =
      (List.range (k + 1)).map (fun i => crrV c n (n - k) i) := by
  apply List.ext_getElem
  · simp [binomStepList]
  · intro j hj1 hj2
    have hjk : j < k + 1 := by simpa using hj2
    have hnk : n - k = (n - (k + 1)) + 1 := by omega
    have hback : n - ((n - (k + 1)) + 1) = k := by omega
    simp only [binomStepList, List.getElem_zipWith, List.getElem_map, List.getElem_range,
      List.getElem_tail, hnk, crrV, hback]

lemma binomLoop_crrV (c : Contract) (n : ℕ) :
    ∀ k, k ≤ n →
      binomLoop c n k ((List.range (k + 1)).map (fun i => crrV c n (n - k) i)) =
        [crrV c n n 0] := by
  intro k
  induction k with
  | zero =>
      intro _
      simp [binomLoop, List.range_succ]
  | succ k ih =>
      intro hk
      have h1 : k + 1 ≤ n := hk
      show binomLoop c n k
          (binomStepList c n k
            ((List.range (k + 2)).map (fun i => crrV c n (n - (k + 1)) i))) =
        [crrV c n n 0]
      rw [binomStepList_map c n k h1]
      exact ih (Nat.le_of_succ_le hk)

lemma binomPrice_eq_crrV (c : Contract) (n : ℕ) :
    binomPrice c n = crrV c n n 0 := by
  have hterm : binomTerminal c n =
      (List.range (n + 1)).map (fun i => crrV c n (n - n) i) := by
    simp [binomTerminal, Nat.sub_self, crrV]
  rw [binomPrice, hterm, binomLoop_crrV c n n le_rfl]
  rfl

/-- C2. `AmericanOption.price()` equals the reference Cox-Ross-Rubinstein
backward induction of the claim: terminal spots `s*up^(n-i)*down^i` with
vanilla intrinsic payoff, node value `max(disc*(p*V_up + (1-p)*V_down),
intrinsic)` at every earlier step, result the value at the root node. -/
theorem binomial_matches_crr (c : Contract) (n : ℕ)
    (hs : 0 < c.spot) (hk : 0 < c.strike) (ht : 0 < c.maturity)
    (hv : 0 < c.volatility) (hn : 1 ≤ n) :
    binomPrice c n = crrV c n n 0 :=
  binomPrice_eq_crrV c n

/-- Witness for C2 at unit parameters with a single step. -/
theorem binomial_matches_crr_witness :
    binomPrice ⟨1, 1, 1, 1, 0, 0, .CALL⟩ 1 = crrV ⟨1, 1, 1, 1, 0, 0, .CALL⟩ 1 1 0 :=
  binomial_matches_crr ⟨1, 1, 1, 1, 0, 0, .CALL⟩ 1
    (by norm_num) (by norm_num) (by norm_num) (by norm_num) (by norm_num)

lemma payoff_nonneg (ot : OptionType) (strike s : ℝ) : 0 ≤ payoff ot strike s := by
  cases ot <;> simp [payoff]

/-- C10. The binomial price dominates the immediate-exercise value at the
root, `max(s-k, 0)` for a CALL and `max(k-s, 0)` for a PUT, because the last
backward-induction step takes the maximum of the continuation value and the
intrinsic payoff at the root spot; in particular the price is non-negative. -/
theorem american_price_ge_intrinsic (c : Contract) (n : ℕ)
    (hs : 0 < c.spot) (hk : 0 < c.strike) (ht : 0 < c.maturity)
    (hv : 0 < c.volatility) (hn : 1 ≤ n) :
    payoff c.option_type c.strike c.spot ≤ binomPrice c n ∧ 0 ≤ binomPrice c n := by
  obtain ⟨m, rfl⟩ : ∃ m, n = m + 1 := ⟨n - 1, by omega⟩
  rw [binomPrice_eq_crrV]
  have hroot : binomSpot c (m + 1) ((m + 1) - (m + 1)) 0 = c.spot := by
    simp [binomSpot]
  have hle : payoff c.option_type c.strike c.spot ≤ crrV c (m + 1) (m + 1) 0 := by
    rw [crrV, ← hroot]
    exact le_max_right _ _
  exact ⟨hle, le_trans (payoff_nonneg _ _ _) hle⟩

/-- Witness for C10 at unit parameters with a single step. -/
theorem american_price_ge_intrinsic_witness :
    payoff OptionType.CALL 1 1 ≤ binomPrice ⟨1, 1, 1, 1, 0, 0, .CALL⟩ 1 ∧
      0 ≤ binomPrice ⟨1, 1, 1, 1, 0, 0, .CALL⟩ 1 :=
  american_price_ge_intrinsic ⟨1, 1, 1, 1, 0, 0, .CALL⟩ 1
    (by norm_num) (by norm_num) (by norm_num) (by norm_num) (by norm_num)

/-- `MonteCarloEngine` dataclass fields, in source order. The dataclass has
no `__post_init__`: building it performs no validation whatsoever. -/
structure MCEParams where
  spot : ℝ
  volatility : ℝ
  rate : ℝ
  maturity : ℝ
  strike : ℝ
  dividend_yield : ℝ
  n_steps : ℕ
  n_paths : ℕ
  seed : Option ℤ
  jump_intensity : ℝ
  jump_mean : ℝ
  jump_vol : ℝ

/-- `MonteCarloEngine(...)`: a plain dataclass constructor, total. -/
def mkMonteCarloEngine (spot volatility rate maturity strike dividend_yield : ℝ)
    (n_steps n_paths : ℕ) (seed : Option ℤ)
    (jump_intensity jump_mean jump_vol : ℝ) : MCEParams :=
  ⟨spot, volatility, rate, maturity, strike, dividend_yield,
    n_steps, n_paths, seed, jump_intensity, jump_mean, jump_vol⟩

/-- C4 counterexample. Constructing `AmericanOption` with `steps = 0` (and a
valid contract) succeeds: no validation error is raised at construction,
refuting the claim that a non-positive step count is rejected there. -/
theorem american_steps_zero_constructs :
    mkAmericanOption 1 1 1 1 0 0 .CALL 0 =
      Except.ok (⟨1, 1, 1, 1, 0, 0, .CALL⟩, 0) := by
  rw [mkAmericanOption,
    mkBaseOption_of_pos 1 1 1 1 0 0 .CALL (by norm_num) (by norm_num)
      (by norm_num) (by norm_num)]
  rfl

/-- C4 amended. Construction validates only the four contract fields: for
any strictly positive spot, strike, maturity and volatility, `AmericanOption`
constructs successfully for every step count (zero and negative included),
and `MonteCarloEngine` construction is total, accepting any path count and
any jump parameters unchecked. -/
theorem construction_validates_contract_only (s k t sigma r q : ℝ)
    (ot : OptionType) (hs : 0 < s) (hk : 0 < k) (ht : 0 < t) (hv : 0 < sigma) :
    (∀ steps : ℤ, mkAmericanOption s k t sigma r q ot steps =
        Except.ok (⟨s, k, t, sigma, r, q, ot⟩, steps)) ∧
    (∀ (n_steps n_paths : ℕ) (seed : Option ℤ) (jι jμ jσ : ℝ),
        mkMonteCarloEngine s sigma r t k q n_steps n_paths seed jι jμ jσ =
          ⟨s, sigma, r, t, k, q, n_steps, n_paths, seed, jι, jμ, jσ⟩) := by
  constructor
  · intro steps
    rw [mkAmericanOption, mkBaseOption_of_pos s k t sigma r q ot hs hk ht hv]
    rfl
  · intro n_steps n_paths seed jι jμ jσ
    rfl

/-- Witness for the amended C4 at unit contract, steps = -1, n_paths = 0 and
negative jump parameters. -/
theorem construction_validates_contract_only_witness :
    mkAmericanOption 1 1 1 1 0 0 .PUT (-1) =
        Except.ok (⟨1, 1, 1, 1, 0, 0, .PUT⟩, -1) ∧
      mkMonteCarloEngine 1 1 0 1 1 0 1 0 none (-1) 0 (-1) =
        ⟨1, 1, 0, 1, 1, 0, 1, 0, none, -1, 0, -1⟩ :=
  ⟨(construction_validates_contract_only 1 1 1 1 0 0 .PUT (by norm_num)
      (by norm_num) (by norm_num) (by norm_num)).1 (-1),
    (construction_validates_contract_only 1 1 1 1 0 0 .PUT (by norm_num)
      (by norm_num) (by norm_num) (by norm_num)).2 1 0 none (-1) 0 (-1)⟩

/-- Python `int()` on a float: truncation toward zero. -/
def truncR (x : ℝ) : ℝ :=
  if 0 ≤ x then ((⌊x⌋ : ℤ) : ℝ) else ((⌈x⌉ : ℤ) : ℝ)

/-- `BarrierOption.price`: `t_step = maturity / n_steps`. -/
def tStep (c : Contract) (nsteps : ℕ) : ℝ :=
  c.maturity / nsteps

/-- `BarrierOption.price`:
`n = log(barrier/spot) / (volatility * sqrt(t_step))`. -/
def trinomialN (c : Contract) (B : ℝ) (nsteps : ℕ) : ℝ :=
  Real.log (B / c.spot) / (c.volatility * Real.sqrt (tStep c nsteps))

/-- `BarrierOption.price`: `nn = n / int(n) if n > 2 else n`. -/
def trinomialNN (c : Contract) (B : ℝ) (nsteps : ℕ) : ℝ :=
  if 2 < trinomialN c B nsteps then
    trinomialN c B nsteps / truncR (trinomialN c B nsteps)
  else trinomialN c B nsteps

/-- `BarrierOption.price`: `dx = nn * volatility * sqrt(t_step)`. -/
def trinDx (c : Contract) (B : ℝ) (nsteps : ℕ) : ℝ :=
  trinomialNN c B nsteps * c.volatility * Real.sqrt (tStep c nsteps)

/-- `BarrierOption.price`: `disc = exp(-rate * t_step)`. -/
def trinDisc (c : Contract) (nsteps : ℕ) : ℝ :=
  Real.exp (-c.rate * tStep c nsteps)

/-- `BarrierOption.price`: drift `u = rate - dividend_yield - 0.5*volatility^2`. -/
def trinDriftU (c : Contract) : ℝ :=
  c.rate - c.dividend_yield - 0.5 * c.volatility ^ 2

/-- `BarrierOption.price`: `pu = 0.5/nn^2 + u*sqrt(t_step)/(2*nn*volatility)`. -/
def trinPu (c : Contract) (B : ℝ) (nsteps : ℕ) : ℝ :=
  0.5 / trinomialNN c B nsteps ^ 2
    + trinDriftU c * Real.sqrt (tStep c nsteps) / (2 * trinomialNN c B nsteps * c.volatility)

/-- `BarrierOption.price`: `pd = 0.5/nn^2 - u*sqrt(t_step)/(2*nn*volatility)`. -/
def trinPd (c : Contract) (B : ℝ) (nsteps : ℕ) : ℝ :=
  0.5 / trinomialNN c B nsteps ^ 2
    - trinDriftU c * Real.sqrt (tStep c nsteps) / (2 * trinomialNN c B nsteps * c.volatility)

/-- `BarrierOption.price`: `pm = 1 - 1/nn^2`. -/
def trinPm (c : Contract) (B : ℝ) (nsteps : ℕ) : ℝ :=
  1 - 1 / trinomialNN c B nsteps ^ 2

/-- Lattice spot at index `i` of the `2*n_steps+1` node array:
`spots[0] = spot*exp(-n_steps*dx)` and `spots[i] = spots[i-1]*exp(dx)`. -/
def barrierSpot (c : Contract) (B : ℝ) (nsteps : ℕ) (i : ℕ) : ℝ :=
  c.spot * Real.exp (-(nsteps : ℝ) * trinDx c B nsteps) * Real.exp (trinDx c B nsteps) ^ i

/-- Node values of the `BarrierOption.price` backward induction, indexed by
steps remaining until maturity (`m = n_steps - t`) and node index `i`.
Fuel `0` is the maturity fill of the rolling array: value `0` on any node
with `spots[i] >= barrier`, otherwise vanilla intrinsic payoff. Fuel `m+1`
is the assignment `option[i][current]` at step `t = n_steps - (m+1)`: `0` on
any node with `spots[i] >= barrier`, otherwise
`pd_*option[i-1][next_] + pm_*option[i][next_] + pu_*option[i+1][next_]`
with the probabilities pre-multiplied by `disc`. -/
def barrierV (c : Contract) (B : ℝ) (nsteps : ℕ) : ℕ → ℕ → ℝ
  | 0, i =>
      if B ≤ barrierSpot c B nsteps i then 0
      else payoff c.option_type c.strike (barrierSpot c B nsteps i)
  | m + 1, i =>
      if B ≤ barrierSpot c B nsteps i then 0
      else
        trinDisc c nsteps * trinPd c B nsteps * barrierV c B nsteps m (i - 1)
          + trinDisc c nsteps * trinPm c B nsteps * barrierV c B nsteps m i
          + trinDisc c nsteps * trinPu c B nsteps * barrierV c B nsteps m (i + 1)

/-- `BarrierOption.price` as a fallible computation. The two places where
the Python code raises `ZeroDivisionError` (for a contract with positive
fields) are modelled by `none`: `t_step = maturity / n_steps` with
`n_steps = 0`, and `0.5 / nn**2` with `nn = 0`. Otherwise the result is the
root value `option[n_steps][0]`, the node at time 0 and index `n_steps`. -/
def barrierPriceOpt (c : Contract) (B : ℝ) (nsteps : ℕ) : Option ℝ :=
  if nsteps = 0 then none
  else if trinomialNN c B nsteps = 0 then none
  else some (barrierV c B nsteps nsteps nsteps)

/-- C5 counterexample. With spot 1, barrier `exp(-3)`, unit volatility and
maturity and one step, `n = -3`, so `|n| > 2`; yet the code leaves `nn = n`
(its test is `n > 2`, not `|n| > 2`), and `n / int(n) = 1 ≠ nn`: the claimed
normalization for `n < -2` does not happen. -/
theorem trinomial_normalization_skipped_below :
    2 < |trinomialN ⟨1, 1, 1, 1, 0, 0, .CALL⟩ (Real.exp (-3)) 1| ∧
      trinomialNN ⟨1, 1, 1, 1, 0, 0, .CALL⟩ (Real.exp (-3)) 1 = -3 ∧
      trinomialNN ⟨1, 1, 1, 1, 0, 0, .CALL⟩ (Real.exp (-3)) 1 ≠
        trinomialN ⟨1, 1, 1, 1, 0, 0, .CALL⟩ (Real.exp (-3)) 1 /
          truncR (trinomialN ⟨1, 1, 1, 1, 0, 0, .CALL⟩ (Real.exp (-3)) 1) := by
  have hN : trinomialN ⟨1, 1, 1, 1, 0, 0, .CALL⟩ (Real.exp (-3)) 1 = -3 := by
    simp [trinomialN, tStep, Real.log_exp, Real.sqrt_one]
  have hNN : trinomialNN ⟨1, 1, 1, 1, 0, 0, .CALL⟩ (Real.exp (-3)) 1 = -3 := by
    rw [trinomialNN, hN]
    norm_num
  have htr : truncR (-3 : ℝ) = -3 := by
    rw [truncR, if_neg (by norm_num)]
    have : ((-3 : ℝ)) = ((-3 : ℤ) : ℝ) := by norm_num
    rw [this, Int.ceil_intCast]
  refine ⟨by rw [hN]; norm_num, hNN, ?_⟩
  rw [hNN, hN, htr]
  norm_num

/-- C5 amended. The branch-width normalization divides `n` by its own
truncated value exactly when `n > 2`; for every `n ≤ 2` — all negative `n`
included, hence any barrier below the spot — the raw `n` is used directly. -/
theorem trinomial_normalization_rule (c : Contract) (B : ℝ) (nsteps : ℕ) :
    (2 < trinomialN c B nsteps →
      trinomialNN c B nsteps = trinomialN c B nsteps / truncR (trinomialN c B nsteps)) ∧
    (trinomialN c B nsteps ≤ 2 → trinomialNN c B nsteps = trinomialN c B nsteps) := by
  constructor
  · intro h
    rw [trinomialNN, if_pos h]
  · intro h
    rw [trinomialNN, if_neg (not_lt.mpr h)]

/-- Witness for the amended C5 at spot = barrier = 1 where `n = 0 ≤ 2`. -/
theorem trinomial_normalization_rule_witness :
    trinomialNN ⟨1, 1, 1, 1, 0, 0, .CALL⟩ 1 1 =
      trinomialN ⟨1, 1, 1, 1, 0, 0, .CALL⟩ 1 1 :=
  (trinomial_normalization_rule ⟨1, 1, 1, 1, 0, 0, .CALL⟩ 1 1).2
    (by simp [trinomialN, tStep])

/-- C6. For a valid contract with a positive barrier and at least one step,
the knock-out invariant of `BarrierOption.price` holds: every lattice node
whose spot is `>= barrier` (the single inequality, whichever side of the
initial spot the barrier lies) is assigned value `0` — at maturity (fuel 0)
and at every interior assignment of every backward step (fuel `m ≥ 1`) —
and every node below the barrier at maturity is assigned the vanilla
intrinsic payoff. -/
theorem barrier_knockout_invariant (c : Contract) (B : ℝ) (nsteps : ℕ)
    (hs : 0 < c.spot) (hk : 0 < c.strike) (ht : 0 < c.maturity)
    (hv : 0 < c.volatility) (hB : 0 < B) (hn : 1 ≤ nsteps) :
    (∀ m i, m ≤ nsteps → B ≤ barrierSpot c B nsteps i →
        barrierV c B nsteps m i = 0) ∧
    (∀ i, barrierSpot c B nsteps i < B →
        barrierV c B nsteps 0 i = payoff c.option_type c.strike (barrierSpot c B nsteps i)) := by
  constructor
  · intro m i _ hbar
    cases m with
    | zero => simp only [barrierV]; rw [if_pos hbar]
    | succ m => simp only [barrierV]; rw [if_pos hbar]
  · intro i hbar
    simp only [barrierV]
    rw [if_neg (not_le.mpr hbar)]

lemma trinN_exp3 :
    trinomialN ⟨1, 1, 1, 1, 0, 0, .CALL⟩ (Real.exp (-3)) 1 = -3 := by
  simp [trinomialN, tStep, Real.log_exp, Real.sqrt_one]

lemma trinDx_exp3 :
    trinDx ⟨1, 1, 1, 1, 0, 0, .CALL⟩ (Real.exp (-3)) 1 = -3 := by
  have hNN : trinomialNN ⟨1, 1, 1, 1, 0, 0, .CALL⟩ (Real.exp (-3)) 1 = -3 := by
    rw [trinomialNN, trinN_exp3]
    norm_num
  rw [trinDx, hNN]
  simp [tStep, Real.sqrt_one]

lemma barrierSpot_exp3_two :
    barrierSpot ⟨1, 1, 1, 1, 0, 0, .CALL⟩ (Real.exp (-3)) 1 2 = Real.exp (-3) := by
  rw [barrierSpot, trinDx_exp3, one_mul, pow_two, ← Real.exp_add, ← Real.exp_add]
  norm_num

/-- Witness for C6: with spot 1 and barrier `exp(-3)` below the spot, the
lowest maturity node sits exactly on the barrier and is valued 0. -/
theorem barrier_knockout_invariant_witness :
    barrierV ⟨1, 1, 1, 1, 0, 0, .CALL⟩ (Real.exp (-3)) 1 0 2 = 0 :=
  (barrier_knockout_invariant ⟨1, 1, 1, 1, 0, 0, .CALL⟩ (Real.exp (-3)) 1
      (by norm_num) (by norm_num) (by norm_num) (by norm_num)
      (Real.exp_pos _) (by norm_num)).1 0 2 (by norm_num)
    (le_of_eq barrierSpot_exp3_two.symm)

lemma barrierSpot_root (c : Contract) (B : ℝ) (n : ℕ) :
    barrierSpot c B n n = c.spot := by
  rw [barrierSpot, ← Real.exp_nat_mul, mul_assoc, ← Real.exp_add]
  have h : -(n : ℝ) * trinDx c B n + (n : ℝ) * trinDx c B n = 0 := by ring
  rw [h, Real.exp_zero, mul_one]

/-- C7 counterexample. With the initial spot exactly on the barrier
(spot = barrier = 1), `BarrierOption.price()` raises (`n = 0`, so `nn = 0`
and `0.5 / nn**2` divides by zero): the result is an error, not the claimed
price 0, refuting the claim for `spot >= barrier` at the equality case. -/
theorem barrier_equal_spot_raises :
    barrierPriceOpt ⟨1, 1, 1, 1, 0, 0, .CALL⟩ 1 1 = none ∧
      barrierPriceOpt ⟨1, 1, 1, 1, 0, 0, .CALL⟩ 1 1 ≠ some 0 := by
  have hN : trinomialN ⟨1, 1, 1, 1, 0, 0, .CALL⟩ 1 1 = 0 := by
    simp [trinomialN, tStep]
  have hNN : trinomialNN ⟨1, 1, 1, 1, 0, 0, .CALL⟩ 1 1 = 0 := by
    rw [trinomialNN, hN]
    norm_num
  have hnone : barrierPriceOpt ⟨1, 1, 1, 1, 0, 0, .CALL⟩ 1 1 = none := by
    rw [barrierPriceOpt, if_neg (by norm_num), if_pos hNN]
  exact ⟨hnone, by rw [hnone]; simp⟩

/-- C7 amended. For a valid contract whose initial spot has strictly crossed
the barrier (spot > barrier > 0) and any step count `>= 1`,
`BarrierOption.price()` evaluates to 0 without error: the root node fails
the boundary test at the first backward step. At spot = barrier exactly the
branch width `n` is zero and the code divides by zero instead. -/
theorem spot_past_barrier_price_zero (c : Contract) (B : ℝ) (nsteps : ℕ)
    (hs : 0 < c.spot) (hk : 0 < c.strike) (ht : 0 < c.maturity)
    (hv : 0 < c.volatility) (hB : 0 < B) (hlt : B < c.spot) (hn : 1 ≤ nsteps) :
    barrierPriceOpt c B nsteps = some 0 := by
  have hn0 : (nsteps : ℝ) ≠ 0 := Nat.cast_ne_zero.mpr (by omega)
  have ht0 : 0 < tStep c nsteps := by
    rw [tStep]
    exact div_pos ht (Nat.cast_pos.mpr (by omega))
  have hden : 0 < c.volatility * Real.sqrt (tStep c nsteps) :=
    mul_pos hv (Real.sqrt_pos.mpr ht0)
  have hlog : Real.log (B / c.spot) < 0 :=
    Real.log_neg (div_pos hB hs) ((div_lt_one hs).mpr hlt)
  have hNneg : trinomialN c B nsteps < 0 := div_neg_of_neg_of_pos hlog hden
  have hNN : trinomialNN c B nsteps = trinomialN c B nsteps := by
    rw [trinomialNN, if_neg (not_lt.mpr (le_of_lt (lt_trans hNneg (by norm_num))))]
  have hNNne : trinomialNN c B nsteps ≠ 0 := by
    rw [hNN]
    exact ne_of_lt hNneg
  rw [barrierPriceOpt, if_neg (by omega : ¬nsteps = 0), if_neg hNNne]
  obtain ⟨m, rfl⟩ : ∃ m, nsteps = m + 1 := ⟨nsteps - 1, by omega⟩
  have hroot : B ≤ barrierSpot c B (m + 1) (m + 1) := by
    rw [barrierSpot_root]
    exact le_of_lt hlt
  simp only [barrierV]
  rw [if_pos hroot]

/-- Witness for the amended C7 with spot 2 above barrier 1. -/
theorem spot_past_barrier_price_zero_witness :
    barrierPriceOpt ⟨2, 1, 1, 1, 0, 0, .CALL⟩ 1 1 = some 0 :=
  spot_past_barrier_price_zero ⟨2, 1, 1, 1, 0, 0, .CALL⟩ 1 1
    (by norm_num) (by norm_num) (by norm_num) (by norm_num) (by norm_num)
    (by norm_num) (by norm_num)

/-- The `option_type` string compared by `price_european` (`'call'`). -/
def callStr : String := "call"

/-- Abstraction of `np.random.default_rng`'s draw methods: an oracle giving
the value of each `poisson(lam)` or `normal(loc, scale)` call as a function
of the requested distribution parameters and the number of draws made so
far (every call advances the counter by one). -/
structure MCStreams where
  pois : ℝ → ℕ → ℕ
  norm : ℝ → ℝ → ℕ → ℝ

/-- `np.random.default_rng(seed)`: a supplied integer seed selects a stream
from the fixed seeded family; `None` falls back to the ambient entropy of
the invocation. -/
def defaultRng {S : Type _} (seedOpt : Option ℤ) (seeded : ℤ → S) (entropy : S) : S :=
  match seedOpt with
  | some s => seeded s
  | none => entropy

/-- The jump draw of one step of `MonteCarloEngine._generate_paths`:
when `jump_intensity > 0` the code draws `n_jumps = rng.poisson(lam*dt)` and,
if positive, `jump = rng.normal(jump_mean*n_jumps, jump_vol*sqrt(n_jumps))`;
otherwise `jump = 0`. Returns the jump and the advanced draw counter. -/
def mcJump (p : MCEParams) (st : MCStreams) (k : ℕ) : ℝ × ℕ :=
  if 0 < p.jump_intensity then
    if 0 < st.pois (p.jump_intensity * (p.maturity / p.n_steps)) k then
      (st.norm (p.jump_mean * (st.pois (p.jump_intensity * (p.maturity / p.n_steps)) k : ℕ))
          (p.jump_vol * Real.sqrt (st.pois (p.jump_intensity * (p.maturity / p.n_steps)) k : ℕ))
          (k + 1),
        k + 2)
    else (0, k + 1)
  else (0, k)

/-- One inner-loop iteration of `MonteCarloEngine._generate_paths`:
`paths[i, j] = paths[i, j-1] * exp(drift + sigma_dt*z + jump)` with
`drift = (rate - dividend_yield - 0.5*volatility^2)*dt` and
`sigma_dt = volatility*sqrt(dt)`, `z = rng.normal()`. -/
def mcStep (p : MCEParams) (st : MCStreams) (prev : ℝ) (k : ℕ) : ℝ × ℕ :=
  (prev * Real.exp ((p.rate - p.dividend_yield - 0.5 * p.volatility ^ 2) * (p.maturity / p.n_steps)
      + p.volatility * Real.sqrt (p.maturity / p.n_steps) * st.norm 0 1 (mcJump p st k).2
      + (mcJump p st k).1),
    (mcJump p st k).2 + 1)

/-- One full trajectory (one row of `paths`, starting at the spot),
threading the draw counter through the steps. -/
def mcPath (p : MCEParams) (st : MCStreams) : ℕ → ℝ → ℕ → List ℝ × ℕ
  | 0, prev, k => ([prev], k)
  | m + 1, prev, k =>
      (prev :: (mcPath p st m (mcStep p st prev k).1 (mcStep p st prev k).2).1,
        (mcPath p st m (mcStep p st prev k).1 (mcStep p st prev k).2).2)

/-- `MonteCarloEngine._generate_paths`: `n_paths` trajectories of `n_steps`
steps each, drawn sequentially from the single generator. -/
def mcPaths (p : MCEParams) (st : MCStreams) : ℕ → ℕ → List (List ℝ) × ℕ
  | 0, k => ([], k)
  | i + 1, k =>
      ((mcPath p st p.n_steps p.spot k).1 ::
          (mcPaths p st i (mcPath p st p.n_steps p.spot k).2).1,
        (mcPaths p st i (mcPath p st p.n_steps p.spot k).2).2)

/-- Per-path payoff of `price_european`: on `paths[i, -1]`, call payoff when
`option_type == 'call'`, else put payoff. -/
def mcePayoff (ot : String) (strike final : ℝ) : ℝ :=
  if ot = callStr then max (final - strike) 0 else max (strike - final) 0

/-- The payoff array built by `MonteCarloEngine.price_european` from the
generated paths (generator seeded per `default_rng(self.seed)`). -/
def mcePayoffs (p : MCEParams) (seeded : ℤ → MCStreams) (entropy : MCStreams)
    (ot : String) : List ℝ :=
  ((mcPaths p (defaultRng p.seed seeded entropy) p.n_paths 0).1).map
    (fun path => mcePayoff ot p.strike (path.getLastD 0))

/-- `MonteCarloEngine.price_european`: returns the pair
`(exp(-rate*maturity) * payoffs.mean(), payoffs.std() / sqrt(n_paths))`,
with numpy's `mean = sum/len` and `std = sqrt(sum((x - mean)^2)/len)`
(population standard deviation, `ddof = 0`). -/
def priceEuropean (p : MCEParams) (seeded : ℤ → MCStreams) (entropy : MCStreams)
    (ot : String) : ℝ × ℝ :=
  (Real.exp (-p.rate * p.maturity) *
      ((mcePayoffs p seeded entropy ot).sum / (mcePayoffs p seeded entropy ot).length),
    Real.sqrt (((mcePayoffs p seeded entropy ot).map
          (fun x => (x - (mcePayoffs p seeded entropy ot).sum /
            (mcePayoffs p seeded entropy ot).length) ^ 2)).sum /
        (mcePayoffs p seeded entropy ot).length) /
      Real.sqrt p.n_paths)

/-- Arithmetic mean of a list, numpy's `mean()`. -/
def listMean (l : List ℝ) : ℝ := l.sum / l.length

/-- Population standard deviation (`ddof = 0`), numpy's default `std()`. -/
def listPopStd (l : List ℝ) : ℝ :=
  Real.sqrt ((l.map (fun x => (x - listMean l) ^ 2)).sum / l.length)

/-- Modelled from the spec wording of C8: the sample standard deviation
(Bessel-corrected, `ddof = 1`) of a list of payoffs. -/
def listSampleStd (l : List ℝ) : ℝ :=
  Real.sqrt ((l.map (fun x => (x - listMean l) ^ 2)).sum / ((l.length - 1 : ℕ) : ℝ))

/-- One trajectory of `AsianOption.price` (only plain `rng.normal()` draws):
`path[t] = path[t-1] * exp(drift + diffusion*z)`. -/
def asianPath (drift diffusion : ℝ) (Z : ℕ → ℝ) : ℕ → ℝ → ℕ → List ℝ × ℕ
  | 0, prev, k => ([prev], k)
  | m + 1, prev, k =>
      (prev :: (asianPath drift diffusion Z m (prev * Real.exp (drift + diffusion * Z k)) (k + 1)).1,
        (asianPath drift diffusion Z m (prev * Real.exp (drift + diffusion * Z k)) (k + 1)).2)

/-- The simulation loop of `AsianOption.price`: one payoff per simulation,
`max(path.mean() - strike, 0)` resp. `max(strike - path.mean(), 0)`. -/
def asianPayoffLoop (c : Contract) (nSteps : ℕ) (drift diffusion : ℝ) (Z : ℕ → ℝ) :
    ℕ → ℕ → List ℝ
  | 0, _ => []
  | s + 1, k =>
      payoff c.option_type c.strike
          (listMean (asianPath drift diffusion Z nSteps c.spot k).1) ::
        asianPayoffLoop c nSteps drift diffusion Z s
          (asianPath drift diffusion Z nSteps c.spot k).2

/-- The payoff array of `AsianOption.price`, whose generator is
`default_rng(self.random_seed)` — the seed field is an `int` (default 42),
never `None`, so the seeded branch is always taken. -/
def asianPayoffs (c : Contract) (nSteps nSims : ℕ) (seed : ℤ)
    (seeded : ℤ → ℕ → ℝ) (entropy : ℕ → ℝ) : List ℝ :=
  asianPayoffLoop c nSteps
    ((c.rate - c.dividend_yield - 0.5 * c.volatility ^ 2) * (c.maturity / nSteps))
    (c.volatility * Real.sqrt (c.maturity / nSteps))
    (defaultRng (some seed) seeded entropy) nSims 0

/-- `AsianOption.price`: `exp(-rate*maturity) * payoffs.mean()` — a single
real; no standard error accompanies it. -/
def asianPrice (c : Contract) (nSteps nSims : ℕ) (seed : ℤ)
    (seeded : ℤ → ℕ → ℝ) (entropy : ℕ → ℝ) : ℝ :=
  Real.exp (-c.rate * c.maturity) *
    ((asianPayoffs c nSteps nSims seed seeded entropy).sum /
      (asianPayoffs c nSteps nSims seed seeded entropy).length)

/-- C9. Seeded reproducibility as a two-run property: with the seeded stream
family fixed (the library's generator) and a seed supplied, two invocations
of `price_european` that differ only in the ambient entropy yield the same
(price, standard error) pair, and likewise two invocations of
`AsianOption.price` (whose generator is always seeded from its
`random_seed` field): the result is a function of the inputs and seed only. -/
theorem seeded_runs_identical :
    (∀ (p : MCEParams) (s : ℤ) (seeded : ℤ → MCStreams) (e₁ e₂ : MCStreams) (ot : String),
        priceEuropean { p with seed := some s } seeded e₁ ot =
          priceEuropean { p with seed := some s } seeded e₂ ot) ∧
    (∀ (c : Contract) (nSteps nSims : ℕ) (sd : ℤ) (seeded : ℤ → ℕ → ℝ) (e₁ e₂ : ℕ → ℝ),
        asianPrice c nSteps nSims sd seeded e₁ = asianPrice c nSteps nSims sd seeded e₂) :=
  ⟨fun _ _ _ _ _ _ => rfl, fun _ _ _ _ _ _ _ => rfl⟩

/-- C8 amended. `price_european` returns the discounted arithmetic mean of
the per-path payoffs together with a standard error equal to the population
standard deviation (`ddof = 0`, numpy's `std()` default) of the payoffs
divided by `sqrt(n_paths)`; `AsianOption.price` returns only the discounted
mean payoff, with no standard error alongside. -/
theorem simulation_price_and_std_error :
    (∀ (p : MCEParams) (seeded : ℤ → MCStreams) (entropy : MCStreams) (ot : String),
        1 ≤ p.n_paths →
        priceEuropean p seeded entropy ot =
          (Real.exp (-p.rate * p.maturity) * listMean (mcePayoffs p seeded entropy ot),
            listPopStd (mcePayoffs p seeded entropy ot) / Real.sqrt p.n_paths)) ∧
    (∀ (c : Contract) (nSteps nSims : ℕ) (sd : ℤ)
        (seeded : ℤ → ℕ → ℝ) (entropy : ℕ → ℝ),
        1 ≤ nSims →
        asianPrice c nSteps nSims sd seeded entropy =
          Real.exp (-c.rate * c.maturity) *
            listMean (asianPayoffs c nSteps nSims sd seeded entropy)) :=
  ⟨fun _ _ _ _ _ => rfl, fun _ _ _ _ _ _ _ => rfl⟩

/-- Witness for the amended C8 with one path and the zero streams. -/
theorem simulation_price_and_std_error_witness :
    priceEuropean ⟨1, 1, 0, 1, 1, 0, 1, 1, none, 0, 0, 0⟩
        (fun _ => ⟨fun _ _ => 0, fun _ _ _ => 0⟩) ⟨fun _ _ => 0, fun _ _ _ => 0⟩ callStr =
      (Real.exp (-(0 : ℝ) * 1) *
          listMean (mcePayoffs ⟨1, 1, 0, 1, 1, 0, 1, 1, none, 0, 0, 0⟩
            (fun _ => ⟨fun _ _ => 0, fun _ _ _ => 0⟩) ⟨fun _ _ => 0, fun _ _ _ => 0⟩ callStr),
        listPopStd (mcePayoffs ⟨1, 1, 0, 1, 1, 0, 1, 1, none, 0, 0, 0⟩
            (fun _ => ⟨fun _ _ => 0, fun _ _ _ => 0⟩) ⟨fun _ _ => 0, fun _ _ _ => 0⟩ callStr) /
          Real.sqrt ((1 : ℕ) : ℝ)) :=
  (simulation_price_and_std_error).1 ⟨1, 1, 0, 1, 1, 0, 1, 1, none, 0, 0, 0⟩
    (fun _ => ⟨fun _ _ => 0, fun _ _ _ => 0⟩) ⟨fun _ _ => 0, fun _ _ _ => 0⟩ callStr
    (by norm_num)

/-- Concrete engine for the C8 counterexample: spot 2, unit volatility and
maturity, zero rates, strike 1, one step, two paths, seed 0, no jumps. -/
def cexParams : MCEParams := ⟨2, 1, 0, 1, 1, 0, 1, 2, some 0, 0, 0, 0⟩

/-- Concrete draw stream for the C8 counterexample: the first normal draw is
`1/2` (cancelling the drift), every later one `3/2`. -/
def cexStream : MCStreams := ⟨fun _ _ => 0, fun _ _ k => if k = 0 then 1 / 2 else 3 / 2⟩

lemma cex_jump : ∀ k, mcJump cexParams cexStream k = (0, k) := by
  intro k
  simp [mcJump, cexParams]

lemma cex_step0 : mcStep cexParams cexStream 2 0 = (2, 1) := by
  rw [mcStep, cex_jump 0]
  simp [cexParams, cexStream]
  norm_num

lemma cex_step1 : mcStep cexParams cexStream 2 1 = (2 * Real.exp 1, 2) := by
  rw [mcStep, cex_jump 1]
  simp [cexParams, cexStream]
  norm_num

lemma cex_payoffs :
    mcePayoffs cexParams (fun _ => cexStream) cexStream callStr =
      [1, 2 * Real.exp 1 - 1] := by
  have h21 : (2 : ℕ) = 1 + 1 := rfl
  have h10 : (1 : ℕ) = 0 + 1 := rfl
  have hpath0 : mcPath cexParams cexStream 1 2 0 = ([2, 2], 1) := by
    rw [h10]
    simp only [mcPath]
    rw [cex_step0]
  have hpath1 : mcPath cexParams cexStream 1 2 1 = ([2, 2 * Real.exp 1], 2) := by
    rw [h10]
    simp only [mcPath]
    rw [cex_step1]
  have hpaths : mcPaths cexParams cexStream 2 0 = ([[2, 2], [2, 2 * Real.exp 1]], 2) := by
    rw [h21]
    simp only [mcPaths]
    have hns : cexParams.n_steps = 1 := rfl
    have hsp : cexParams.spot = 2 := rfl
    rw [hns, hsp, hpath0]
    simp only [mcPaths]
    rw [hpath1]
  have he2 : (2 : ℝ) ≤ Real.exp 1 := by
    have := Real.add_one_le_exp (1 : ℝ)
    linarith
  rw [mcePayoffs]
  have hrng : defaultRng cexParams.seed (fun _ => cexStream) cexStream = cexStream := rfl
  have hnp : cexParams.n_paths = 2 := rfl
  rw [hrng, hnp, hpaths]
  simp [mcePayoff, callStr, cexParams, List.getLastD]
  exact ⟨by norm_num, by linarith⟩

/-- C8 counterexample. For the concrete two-path engine, the standard error
returned by `price_european` is the population standard deviation over
`sqrt(n_paths)`, which differs from the claimed sample standard deviation
(`ddof = 1`) over `sqrt(n_paths)`: the payoffs are `[1, 2e-1]`, the code
returns `(e-1)/sqrt 2`, the claim demands `e-1`. -/
theorem std_error_not_sample_std :
    (priceEuropean cexParams (fun _ => cexStream) cexStream callStr).2 ≠
      listSampleStd (mcePayoffs cexParams (fun _ => cexStream) cexStream callStr) /
        Real.sqrt (cexParams.n_paths : ℝ) := by
  have he2 : (2 : ℝ) ≤ Real.exp 1 := by
    have := Real.add_one_le_exp (1 : ℝ)
    linarith
  have he1 : 0 ≤ Real.exp 1 - 1 := by linarith
  have hmean : listMean [1, 2 * Real.exp 1 - 1] = Real.exp 1 := by
    simp [listMean]
  have hdev : (([1, 2 * Real.exp 1 - 1] : List ℝ).map
      (fun x => (x - listMean [1, 2 * Real.exp 1 - 1]) ^ 2)).sum
        = 2 * (Real.exp 1 - 1) ^ 2 := by
    rw [hmean]
    simp
    ring
  have hsq : Real.sqrt ((Real.exp 1 - 1) ^ 2) = Real.exp 1 - 1 := Real.sqrt_sq he1
  have hlhs : (priceEuropean cexParams (fun _ => cexStream) cexStream callStr).2 =
      (Real.exp 1 - 1) / Real.sqrt 2 := by
    have hstd : (priceEuropean cexParams (fun _ => cexStream) cexStream callStr).2 =
        listPopStd (mcePayoffs cexParams (fun _ => cexStream) cexStream callStr) /
          Real.sqrt (cexParams.n_paths : ℝ) := rfl
    rw [hstd, cex_payoffs, listPopStd, hdev]
    have hlen : (([1, 2 * Real.exp 1 - 1] : List ℝ).length : ℝ) = 2 := by simp
    rw [hlen]
    have hnp : ((cexParams.n_paths : ℕ) : ℝ) = 2 := by
      norm_num [cexParams]
    rw [hnp]
    have : (2 * (Real.exp 1 - 1) ^ 2) / 2 = (Real.exp 1 - 1) ^ 2 := by ring
    rw [this, hsq]
  have hrhs : listSampleStd (mcePayoffs cexParams (fun _ => cexStream) cexStream callStr) /
      Real.sqrt (cexParams.n_paths : ℝ) = Real.exp 1 - 1 := by
    rw [cex_payoffs, listSampleStd, hdev]
    have hlen : ((([1, 2 * Real.exp 1 - 1] : List ℝ).length - 1 : ℕ) : ℝ) = 1 := by simp
    rw [hlen]
    have hnp : ((cexParams.n_paths : ℕ) : ℝ) = 2 := by
      norm_num [cexParams]
    rw [hnp]
    have h2 : (2 * (Real.exp 1 - 1) ^ 2) / 1 = 2 * (Real.exp 1 - 1) ^ 2 := by ring
    rw [h2, Real.sqrt_mul (by norm_num : (0:ℝ) ≤ 2), hsq]
    exact mul_div_cancel_left₀ _ (ne_of_gt (Real.sqrt_pos.mpr (by norm_num)))
  rw [hlhs, hrhs]
  have hpos : 0 < Real.exp 1 - 1 := by linarith
  have hone : (1 : ℝ) < Real.sqrt 2 := by
    have h := Real.sqrt_lt_sqrt (by norm_num : (0:ℝ) ≤ 1) (by norm_num : (1:ℝ) < 2)
    rwa [Real.sqrt_one] at h
  exact ne_of_lt (div_lt_self hpos hone)

end Pricer
